import Mathlib

/-!
Verification of the credential/session-management core of the
`auth0-mgmt-api` client library (src/src/client.rs, src/src/error.rs,
src/src/api/*.rs), via a shallow embedding in Lean 4.

Modelling conventions:
* `std::time::Instant` values are natural numbers of seconds.
* `std::time::Duration` values used by the backoff computation are
  non-negative rationals of seconds (`ℚ`); the source computes the next
  delay through `f64` seconds, which is exact rational arithmetic for the
  values involved, so we model the arithmetic exactly.
* A `reqwest` send outcome is a `ServerReply`: a transport-level error
  (with its `is_timeout`/`is_connect`/`is_request` classification and an
  identity tag), or an HTTP response carrying the status code, the parsed
  integer value of the `retry-after` header when present and integer-valued
  (`Option Nat`, mirroring the `get → to_str → parse::<u64>` chain), and
  the two possible JSON decodings of the body (`Option` = decoding result).
* The token endpoint's behaviour is a function `server : Nat → ServerReply`
  giving the reply to the attempt with that index.
-/

namespace Auth0

/-- A `reqwest::Error`: either a transport-level failure with its kind
classification (as reported by `is_timeout`/`is_connect`/`is_request`) and
an identity tag, or a body-decoding failure (`response.json()` error). -/
inductive ReqwestError where
  | transport (timeout connect request : Bool) (tag : Nat)
  | decode
  deriving DecidableEq, Repr

/-- Embeds `ManagementClient::is_retryable_error` (client.rs:201-203):
`error.is_timeout() || error.is_connect() || error.is_request()`.
A decode error reports false on all three. -/
def is_retryable_error : ReqwestError → Bool
  | .transport timeout connect request _ => timeout || connect || request
  | .decode => false

/-- Embeds `ManagementClient::is_retryable_status` (client.rs:205-207). -/
def is_retryable_status (status : Nat) : Bool :=
  status == 429 || status == 502 || status == 503 || status == 504

/-- Embeds `reqwest::StatusCode::is_success`: 2xx. -/
def isSuccess (status : Nat) : Bool :=
  200 ≤ status && status < 300

/-- The error-body shape used by `get_token` / `handle_error`
(client.rs:190-192, 281-291): optional `message`, `error` and `errorCode`
fields. -/
structure Auth0ApiError where
  message : Option String
  error : Option String
  error_code : Option String
  deriving DecidableEq, Repr

/-- Embeds `error.message.unwrap_or(error.error.unwrap_or_default())`
(client.rs:192, 289). -/
def errMessage (e : Auth0ApiError) : String :=
  e.message.getD (e.error.getD "")

/-- The subset of `Auth0Error` (error.rs) reachable from the embedded
operations. `http` wraps a `reqwest` error (variant `Http`). -/
inductive Auth0Error where
  | http (e : ReqwestError)
  | authentication (message : String)
  | api (status : Nat) (message : String) (error_code : Option String)
  | rateLimited (retry_after : Option Nat)
  deriving DecidableEq, Repr

/-- Embeds `TokenResponse` (client.rs:66-72): the 2xx token-endpoint body. -/
structure TokenResponse where
  access_token : String
  expires_in : Nat
  deriving DecidableEq, Repr

/-- Embeds `TokenInfo` (client.rs:60-64): the cached-token slot's contents. -/
structure TokenInfo where
  access_token : String
  expires_at : Nat
  deriving DecidableEq, Repr

deriving instance DecidableEq for Except

/-- One outcome of sending the token request: a `reqwest` error, or a
response with status, parsed `retry-after` header, and the body's two
possible decodings (`tokenBody` as `TokenResponse`, `errBody` as
`Auth0ApiError`). -/
inductive ServerReply where
  | transportErr (e : ReqwestError)
  | response (status : Nat) (retryAfter : Option Nat)
      (tokenBody : Option TokenResponse) (errBody : Option Auth0ApiError)
  deriving DecidableEq, Repr

/-- Embeds `RetryConfig` (client.rs:31-40); durations in rational seconds. -/
structure RetryConfig where
  max_retries : Nat
  initial_delay : ℚ
  max_delay : ℚ
  multiplier : ℚ
  deriving DecidableEq, Repr

/-- Embeds `RetryConfig::default` (client.rs:42-51): 3 retries, 100 ms initial
delay, 10 s max delay, multiplier 2. -/
def RetryConfig.default : RetryConfig :=
  { max_retries := 3, initial_delay := 1/10, max_delay := 10, multiplier := 2 }

/-- Result of one `get_token` refresh loop (client.rs:118-198):
the returned value, the write performed on the cached-token slot (if any),
the delays slept in order, and the number of outbound token requests. -/
structure LoopOut where
  result : Except Auth0Error String
  cacheWrite : Option TokenInfo
  sleeps : List ℚ
  reqs : Nat
  deriving DecidableEq, Repr

/-- The message `format!("Token request failed with status {}", status.as_u16())`
(client.rs:185). -/
def tokenFailMsg (status : Nat) : String :=
  "Token request failed with status " ++ toString status

/-- The attempt loop of `get_token` (client.rs:121-198), one constructor
case per iteration. `fuel` is the number of attempts still permitted
(`max_retries + 1 - attempt`); `attempt`, `delay` and `lastError` are the
loop variables; `sleeps` and `reqs` accumulate the observable sleep and
request history. Each iteration optionally sleeps and advances the delay
(client.rs:122-130), sends the request, and classifies the outcome exactly
as the source does. -/
def tokenLoopAux (cfg : RetryConfig) (server : Nat → ServerReply) (now : Nat) :
    Nat → Nat → ℚ → Option Auth0Error → List ℚ → Nat → LoopOut
  | 0, _, _, lastError, sleeps, reqs =>
      ⟨.error (lastError.getD
          (.authentication "Token refresh failed after retries")),
        none, sleeps, reqs⟩
  | fuel + 1, attempt, delay, lastError, sleeps, reqs =>
      let sleeps1 := if 0 < attempt then sleeps ++ [delay] else sleeps
      let delay1 :=
        if 0 < attempt then min cfg.max_delay (delay * cfg.multiplier) else delay
      match server attempt with
      | .transportErr e =>
          if is_retryable_error e && decide (attempt < cfg.max_retries) then
            tokenLoopAux cfg server now fuel (attempt + 1) delay1
              (some (.http e)) sleeps1 (reqs + 1)
          else
            ⟨.error (.http e), none, sleeps1, reqs + 1⟩
      | .response status retryAfter tokenBody errBody =>
          if isSuccess status then
            match tokenBody with
            | some tr =>
                ⟨.ok tr.access_token,
                  some ⟨tr.access_token, now + (tr.expires_in - 60)⟩,
                  sleeps1, reqs + 1⟩
            | none => ⟨.error (.http .decode), none, sleeps1, reqs + 1⟩
          else if is_retryable_status status && decide (attempt < cfg.max_retries) then
            let delay2 :=
              if status == 429 then
                match retryAfter with
                | some ra => (ra : ℚ)
                | none => delay1
              else delay1
            tokenLoopAux cfg server now fuel (attempt + 1) delay2
              (some (.authentication (tokenFailMsg status)))
              sleeps1 (reqs + 1)
          else
            match errBody with
            | some eb =>
                ⟨.error (.authentication (errMessage eb)), none, sleeps1, reqs + 1⟩
            | none => ⟨.error (.http .decode), none, sleeps1, reqs + 1⟩

/-- Result of a whole `get_token` call: the returned value, the cached-token
slot after the call, the sleeps, and the number of outbound token requests. -/
structure RunOut where
  result : Except Auth0Error String
  cache : Option TokenInfo
  sleeps : List ℚ
  reqs : Nat
  deriving DecidableEq, Repr

/-- The cache fast-path test (client.rs:93-98 and its repetition at
107-114): a cached token is served while `expires_at > now` (strict). -/
def cacheValid (cache : Option TokenInfo) (now : Nat) : Option String :=
  match cache with
  | some info => if now < info.expires_at then some info.access_token else none
  | none => none

/-- Embeds `ManagementClient::get_token` (client.rs:91-199) for a single caller:
fast-path cache read, the (here sequential, hence idempotent) double-check
after the semaphore, then the retry loop; on success the slot is replaced
wholesale, on error it is left unchanged. -/
def get_token (cfg : RetryConfig) (server : Nat → ServerReply)
    (cache : Option TokenInfo) (now : Nat) : RunOut :=
  match cacheValid cache now with
  | some tok => ⟨.ok tok, cache, [], 0⟩
  | none =>
    match cacheValid cache now with
    | some tok => ⟨.ok tok, cache, [], 0⟩
    | none =>
      let out := tokenLoopAux cfg server now (cfg.max_retries + 1) 0
        cfg.initial_delay none [] 0
      ⟨out.result, out.cacheWrite.elim cache some, out.sleeps, out.reqs⟩

/-- Embeds `ManagementClient::handle_error` (client.rs:269-292): 429 becomes
`RateLimited` with the parsed `retry-after` header; any other status parses
the error body, substituting `{error: "Unknown error"}` when the body does
not decode, and becomes `Api`. -/
def handle_error (status : Nat) (retryAfter : Option Nat)
    (errBody : Option Auth0ApiError) : Auth0Error :=
  if status == 429 then
    .rateLimited retryAfter
  else
    let error := errBody.getD ⟨none, some "Unknown error", none⟩
    .api status (errMessage error) error.error_code

/-- The send outcome of one resource request; `okBody : Option T` is the
result of decoding a 2xx body into the expected shape `T`. -/
inductive ResourceReply (T : Type) where
  | transportErr (e : ReqwestError)
  | response (status : Nat) (retryAfter : Option Nat)
      (okBody : Option T) (errBody : Option Auth0ApiError)

/-- Embeds `ManagementClient::handle_response` (client.rs:261-267): decode a 2xx
body, otherwise classify through `handle_error`. -/
def handle_response {T : Type} (status : Nat) (retryAfter : Option Nat)
    (okBody : Option T) (errBody : Option Auth0ApiError) : Except Auth0Error T :=
  if isSuccess status then
    match okBody with
    | some v => .ok v
    | none => .error (.http .decode)
  else
    .error (handle_error status retryAfter errBody)

/-- A resource-request execution (`ManagementClient::get`/`post`/`patch`,
client.rs:209-248): obtain a token (propagating its error with no resource
request sent), send exactly one resource request, classify the response.
Returns the result paired with the number of outbound resource requests. -/
def executeRequest {T : Type} (tokenResult : Except Auth0Error String)
    (reply : ResourceReply T) : Except Auth0Error T × Nat :=
  match tokenResult with
  | .error e => (.error e, 0)
  | .ok _ =>
    match reply with
    | .transportErr e => (.error (.http e), 1)
    | .response status retryAfter okBody errBody =>
      (handle_response status retryAfter okBody errBody, 1)

end Auth0

namespace Auth0

/-- Any `.error` outcome of the refresh loop leaves the cached-token slot
unwritten: the only constructor of `LoopOut` carrying a `cacheWrite` is the
2xx success branch. -/
theorem tokenLoopAux_error_cacheWrite_eq_none
    (cfg : RetryConfig) (server : Nat → ServerReply) (now : Nat) :
    ∀ (fuel attempt : Nat) (delay : ℚ) (lastError : Option Auth0Error)
      (sleeps : List ℚ) (reqs : Nat) (e : Auth0Error),
      (tokenLoopAux cfg server now fuel attempt delay lastError sleeps reqs).result
          = .error e →
      (tokenLoopAux cfg server now fuel attempt delay lastError sleeps reqs).cacheWrite
          = none := by
  intro fuel
  induction fuel with
  | zero => intro attempt delay lastError sleeps reqs e _; rfl
  | succ fuel ih =>
    intro attempt delay lastError sleeps reqs e h
    rw [tokenLoopAux] at h ⊢
    cases hs : server attempt with
    | transportErr te =>
      simp only [hs] at h ⊢
      by_cases hr : (is_retryable_error te && decide (attempt < cfg.max_retries)) = true
      · simp only [hr, if_true] at h ⊢
        exact ih _ _ _ _ _ e h
      · simp only [hr] at h ⊢
        simp
    | response status retryAfter tokenBody errBody =>
      simp only [hs] at h ⊢
      by_cases hsucc : isSuccess status = true
      · simp only [hsucc, if_true] at h ⊢
        cases tokenBody with
        | some tr => simp at h
        | none => simp
      · simp only [hsucc] at h ⊢
        by_cases hr : (is_retryable_status status && decide (attempt < cfg.max_retries)) = true
        · simp only [hr, if_false, if_true, Bool.false_eq_true] at h ⊢
          exact ih _ _ _ _ _ e h
        · simp only [hr, if_false, Bool.false_eq_true] at h ⊢
          cases errBody with
          | some eb => simp
          | none => simp

/-- C10: a failed `get_token` call leaves the cached-token slot exactly as
it was before the call; only the successful 2xx token-response path writes
the slot. -/
theorem get_token_error_preserves_cache
    (cfg : RetryConfig) (server : Nat → ServerReply)
    (cache : Option TokenInfo) (now : Nat) (e : Auth0Error)
    (h : (get_token cfg server cache now).result = .error e) :
    (get_token cfg server cache now).cache = cache := by
  unfold get_token at h ⊢
  cases hc : cacheValid cache now with
  | some tok => simp [hc] at h
  | none =>
    simp only [hc] at h ⊢
    have := tokenLoopAux_error_cacheWrite_eq_none cfg server now
      (cfg.max_retries + 1) 0 cfg.initial_delay none [] 0 e h
    simp [this]

/-- Witness for C10 at a concrete failing input: a `401` refresh with an
empty cache fails and the cache stays empty. -/
theorem get_token_error_preserves_cache_witness :
    (get_token RetryConfig.default
      (fun _ => .response 401 none none (some ⟨some "denied", none, none⟩))
      none 0).cache = none :=
  get_token_error_preserves_cache RetryConfig.default
    (fun _ => .response 401 none none (some ⟨some "denied", none, none⟩))
    none 0 (.authentication "denied") (by decide)

/-- C3: a successful refresh writes the slot with
`expires_at = now + (expires_in − 60)` (saturating, i.e. `max 0` over ℤ),
returns the token, and any later call strictly before `expires_at` serves
the cached string from the fast path with zero outbound requests. -/
theorem token_expiry_margin
    (cfg : RetryConfig) (server : Nat → ServerReply)
    (cache : Option TokenInfo) (now status e : Nat) (tok : String)
    (ra : Option Nat) (eb : Option Auth0ApiError)
    (hc : cacheValid cache now = none)
    (hs : server 0 = .response status ra (some ⟨tok, e⟩) eb)
    (hok : isSuccess status = true) :
    (get_token cfg server cache now).result = .ok tok
    ∧ (get_token cfg server cache now).cache = some ⟨tok, now + (e - 60)⟩
    ∧ (((now + (e - 60) : Nat) : ℤ) = now + max 0 ((e : ℤ) - 60))
    ∧ ∀ (server2 : Nat → ServerReply) (now2 : Nat), now2 < now + (e - 60) →
        get_token cfg server2 (get_token cfg server cache now).cache now2
          = ⟨.ok tok, (get_token cfg server cache now).cache, [], 0⟩ := by
  have hrun : get_token cfg server cache now
      = ⟨.ok tok, some ⟨tok, now + (e - 60)⟩, [], 1⟩ := by
    unfold get_token
    simp only [hc]
    rw [tokenLoopAux]
    simp [hs, hok]
  refine ⟨by rw [hrun], by rw [hrun], by omega, ?_⟩
  intro server2 now2 h2
  rw [hrun]
  unfold get_token
  simp [cacheValid, h2]

/-- Witness for C3: `expires_in = 3600` caches expiry `3540`, and a call at
time `100 < 3540` is served from the cache with no request. -/
theorem token_expiry_margin_witness :
    (get_token RetryConfig.default
        (fun _ => .response 200 none (some ⟨"tok", 3600⟩) none) none 0).result
      = .ok "tok"
    ∧ (get_token RetryConfig.default
        (fun _ => .response 200 none (some ⟨"tok", 3600⟩) none) none 0).cache
      = some ⟨"tok", 3540⟩
    ∧ get_token RetryConfig.default
        (fun _ => .response 503 none none none)
        (get_token RetryConfig.default
          (fun _ => .response 200 none (some ⟨"tok", 3600⟩) none) none 0).cache 100
      = ⟨.ok "tok",
          (get_token RetryConfig.default
            (fun _ => .response 200 none (some ⟨"tok", 3600⟩) none) none 0).cache,
          [], 0⟩ := by
  have h := token_expiry_margin RetryConfig.default
    (fun _ => .response 200 none (some ⟨"tok", 3600⟩) none) none 0 200 3600 "tok"
    none none (by decide) rfl (by decide)
  exact ⟨h.1, h.2.1, h.2.2.2 (fun _ => .response 503 none none none) 100 (by decide)⟩

/-- C5: a non-2xx, non-retryable token-endpoint status causes exactly one
attempt and an immediate `AuthenticationError` whose message is the error
body's `message`, falling back to `error`, falling back to `""`. -/
theorem no_retry_on_hard_auth_failure
    (cfg : RetryConfig) (server : Nat → ServerReply)
    (cache : Option TokenInfo) (now status : Nat) (ra : Option Nat)
    (tb : Option TokenResponse) (eb : Auth0ApiError)
    (hc : cacheValid cache now = none)
    (hs : server 0 = .response status ra tb (some eb))
    (hfail : isSuccess status = false)
    (hnr : is_retryable_status status = false) :
    (get_token cfg server cache now).reqs = 1
    ∧ (get_token cfg server cache now).result
        = .error (.authentication (eb.message.getD (eb.error.getD ""))) := by
  have hrun : get_token cfg server cache now
      = ⟨.error (.authentication (errMessage eb)), cache, [], 1⟩ := by
    unfold get_token
    simp only [hc]
    rw [tokenLoopAux]
    simp [hs, hfail, hnr, errMessage]
  rw [hrun]
  exact ⟨rfl, rfl⟩

/-- Witness for C5: a `401` with body `{error: "access_denied"}` yields one
attempt and `AuthenticationError "access_denied"`. -/
theorem no_retry_on_hard_auth_failure_witness :
    (get_token RetryConfig.default
        (fun _ => .response 401 none none (some ⟨none, some "access_denied", none⟩))
        none 0).reqs = 1
    ∧ (get_token RetryConfig.default
        (fun _ => .response 401 none none (some ⟨none, some "access_denied", none⟩))
        none 0).result = .error (.authentication "access_denied") :=
  no_retry_on_hard_auth_failure RetryConfig.default
    (fun _ => .response 401 none none (some ⟨none, some "access_denied", none⟩))
    none 0 401 none none ⟨none, some "access_denied", none⟩
    (by decide) rfl (by decide) (by decide)

/-- C7: a resource request answered `429` is sent exactly once (this layer
never retries) and surfaces `RateLimited` carrying exactly the parsed
`retry-after` header value (`none` when absent or non-integer). -/
theorem rate_limited_surfaced_not_retried {T : Type}
    (tok : String) (ra : Option Nat) (okBody : Option T)
    (errBody : Option Auth0ApiError) :
    executeRequest (.ok tok) (.response 429 ra okBody errBody)
      = (.error (.rateLimited ra), 1) := by
  simp [executeRequest, handle_response, handle_error, isSuccess]

/-- C8: a non-2xx, non-429 resource response is classified as
`Api {status, message, errorCode}` from the parsed body, and an unparsable
body is tolerated by substituting the generic "Unknown error" message. -/
theorem api_error_classification {T : Type}
    (tok : String) (status : Nat) (ra : Option Nat) (okBody : Option T)
    (hfail : isSuccess status = false) (h429 : status ≠ 429) :
    (∀ eb : Auth0ApiError,
      executeRequest (.ok tok) (.response status ra okBody (some eb))
        = (.error (.api status (eb.message.getD (eb.error.getD "")) eb.error_code), 1))
    ∧ executeRequest (.ok tok) (.response status ra okBody none)
        = (.error (.api status "Unknown error" none), 1) := by
  constructor
  · intro eb
    simp [executeRequest, handle_response, handle_error, hfail, h429, errMessage]
  · simp [executeRequest, handle_response, handle_error, hfail, h429, errMessage]

/-- The refresh loop only ever appends to the sleep accumulator. -/
theorem tokenLoopAux_sleeps_append
    (cfg : RetryConfig) (server : Nat → ServerReply) (now : Nat) :
    ∀ (fuel attempt : Nat) (delay : ℚ) (lastError : Option Auth0Error)
      (sleeps : List ℚ) (reqs : Nat),
      ∃ t, (tokenLoopAux cfg server now fuel attempt delay lastError sleeps reqs).sleeps
            = sleeps ++ t := by
  intro fuel
  induction fuel with
  | zero => intro attempt delay lastError sleeps reqs; exact ⟨[], by simp [tokenLoopAux]⟩
  | succ fuel ih =>
    intro attempt delay lastError sleeps reqs
    rw [tokenLoopAux]
    have hacc : ∃ s₀, (if 0 < attempt then sleeps ++ [delay] else sleeps) = sleeps ++ s₀ := by
      by_cases h : 0 < attempt
      · exact ⟨[delay], by simp [h]⟩
      · exact ⟨[], by simp [h]⟩
    obtain ⟨s₀, hs₀⟩ := hacc
    cases hs : server attempt with
    | transportErr te =>
      by_cases hr : (is_retryable_error te && decide (attempt < cfg.max_retries)) = true
      · simp only [hr, if_true]
        obtain ⟨t, ht⟩ := ih (attempt + 1)
          (if 0 < attempt then min cfg.max_delay (delay * cfg.multiplier) else delay)
          (some (.http te)) (if 0 < attempt then sleeps ++ [delay] else sleeps) (reqs + 1)
        exact ⟨s₀ ++ t, by rw [ht, hs₀, List.append_assoc]⟩
      · simp only [hr, if_false, Bool.false_eq_true]
        exact ⟨s₀, hs₀⟩
    | response status retryAfter tokenBody errBody =>
      by_cases hsucc : isSuccess status = true
      · simp only [hsucc, if_true]
        cases tokenBody with
        | some tr => exact ⟨s₀, hs₀⟩
        | none => exact ⟨s₀, hs₀⟩
      · simp only [hsucc, if_false, Bool.false_eq_true]
        by_cases hr : (is_retryable_status status && decide (attempt < cfg.max_retries)) = true
        · simp only [hr, if_true]
          obtain ⟨t, ht⟩ := ih (attempt + 1) _ _
            (if 0 < attempt then sleeps ++ [delay] else sleeps) (reqs + 1)
          exact ⟨s₀ ++ t, by rw [ht, hs₀, List.append_assoc]⟩
        · simp only [hr, if_false, Bool.false_eq_true]
          cases errBody with
          | some eb => exact ⟨s₀, hs₀⟩
          | none => exact ⟨s₀, hs₀⟩

/-- Entering an iteration with a positive attempt index, the loop first
sleeps the current delay: the output sleep list extends the accumulator
with that delay. -/
theorem tokenLoopAux_sleeps_cons
    (cfg : RetryConfig) (server : Nat → ServerReply) (now : Nat)
    (fuel attempt : Nat) (delay : ℚ) (lastError : Option Auth0Error)
    (sleeps : List ℚ) (reqs : Nat)
    (hf : 0 < fuel) (ha : 0 < attempt) :
    ∃ t, (tokenLoopAux cfg server now fuel attempt delay lastError sleeps reqs).sleeps
          = sleeps ++ delay :: t := by
  obtain ⟨f, rfl⟩ : ∃ f, fuel = f + 1 := ⟨fuel - 1, by omega⟩
  rw [tokenLoopAux]
  simp only [ha, if_true]
  have hone : sleeps ++ [delay] = sleeps ++ delay :: [] := rfl
  cases hs : server attempt with
  | transportErr te =>
    by_cases hr : (is_retryable_error te && decide (attempt < cfg.max_retries)) = true
    · simp only [hr, if_true]
      obtain ⟨t, ht⟩ := tokenLoopAux_sleeps_append cfg server now f (attempt + 1)
        (min cfg.max_delay (delay * cfg.multiplier)) (some (.http te))
        (sleeps ++ [delay]) (reqs + 1)
      exact ⟨t, by rw [ht]; simp⟩
    · simp only [hr, if_false, Bool.false_eq_true]
      exact ⟨[], rfl⟩
  | response status retryAfter tokenBody errBody =>
    by_cases hsucc : isSuccess status = true
    · simp only [hsucc, if_true]
      cases tokenBody with
      | some tr => exact ⟨[], rfl⟩
      | none => exact ⟨[], rfl⟩
    · simp only [hsucc, if_false, Bool.false_eq_true]
      by_cases hr : (is_retryable_status status && decide (attempt < cfg.max_retries)) = true
      · simp only [hr, if_true]
        obtain ⟨t, ht⟩ := tokenLoopAux_sleeps_append cfg server now f (attempt + 1) _ _
          (sleeps ++ [delay]) (reqs + 1)
        exact ⟨t, by rw [ht]; simp⟩
      · simp only [hr, if_false, Bool.false_eq_true]
        cases errBody with
        | some eb => exact ⟨[], rfl⟩
        | none => exact ⟨[], rfl⟩

/-- A reply that the token endpoint classifies as retryable: a transport
error satisfying `is_retryable_error`, or a response whose status satisfies
`is_retryable_status` (429/502/503/504). -/
def isRetryableReply : ServerReply → Bool
  | .transportErr e => is_retryable_error e
  | .response status _ _ _ => is_retryable_status status

/-- The error the loop produces when the reply to its final permitted
attempt is retryable but no attempts remain (client.rs:154 and 190-193):
the transport error verbatim, the parsed error body's message as an
`Authentication` error, or the body-decoding failure. -/
def finalAttemptError : ServerReply → Auth0Error
  | .transportErr e => .http e
  | .response _ _ _ (some eb) => .authentication (errMessage eb)
  | .response _ _ _ none => .http .decode

theorem retryable_not_success (status : Nat)
    (h : is_retryable_status status = true) : isSuccess status = false := by
  simp only [is_retryable_status, Bool.or_eq_true, beq_iff_eq] at h
  rcases h with ((h | h) | h) | h <;> subst h <;> decide

/-- When every reply up to the attempt budget is retryable, the loop runs
all remaining attempts and exits with the final attempt's error. -/
theorem tokenLoopAux_exhaustion
    (cfg : RetryConfig) (server : Nat → ServerReply) (now : Nat)
    (hre : ∀ a, a ≤ cfg.max_retries → isRetryableReply (server a) = true) :
    ∀ (fuel attempt : Nat) (delay : ℚ) (lastError : Option Auth0Error)
      (sleeps : List ℚ) (reqs : Nat),
      attempt + fuel = cfg.max_retries + 1 → attempt ≤ cfg.max_retries →
      (tokenLoopAux cfg server now fuel attempt delay lastError sleeps reqs).result
          = .error (finalAttemptError (server cfg.max_retries))
      ∧ (tokenLoopAux cfg server now fuel attempt delay lastError sleeps reqs).reqs
          = reqs + fuel := by
  intro fuel
  induction fuel with
  | zero => intro attempt delay lastError sleeps reqs hsum hle; omega
  | succ fuel ih =>
    intro attempt delay lastError sleeps reqs hsum hle
    rw [tokenLoopAux]
    have hr := hre attempt hle
    cases hs : server attempt with
    | transportErr te =>
      have hte : is_retryable_error te = true := by
        simpa [isRetryableReply, hs] using hr
      by_cases hat : attempt < cfg.max_retries
      · have hguard : (is_retryable_error te && decide (attempt < cfg.max_retries)) = true := by
          simp [hte, hat]
        simp only [hguard, if_true]
        obtain ⟨ha, hb⟩ := ih (attempt + 1) _ (some (.http te)) _ (reqs + 1)
          (by omega) (by omega)
        exact ⟨ha, by rw [hb]; omega⟩
      · have hfin : attempt = cfg.max_retries := by omega
        have hfuel : fuel = 0 := by omega
        have hguard : (is_retryable_error te && decide (attempt < cfg.max_retries)) = false := by
          simp [hat]
        simp only [hguard, if_false, Bool.false_eq_true]
        rw [hfin] at hs
        simp [finalAttemptError, hs, hfuel]
    | response status ra tb eb =>
      have hrs : is_retryable_status status = true := by
        simpa [isRetryableReply, hs] using hr
      have hsucc : isSuccess status = false := retryable_not_success status hrs
      simp only [hsucc, if_false, Bool.false_eq_true]
      by_cases hat : attempt < cfg.max_retries
      · have hguard : (is_retryable_status status && decide (attempt < cfg.max_retries)) = true := by
          simp [hrs, hat]
        simp only [hguard, if_true]
        obtain ⟨ha, hb⟩ := ih (attempt + 1) _ _ _ (reqs + 1) (by omega) (by omega)
        exact ⟨ha, by rw [hb]; omega⟩
      · have hfin : attempt = cfg.max_retries := by omega
        have hfuel : fuel = 0 := by omega
        have hguard : (is_retryable_status status && decide (attempt < cfg.max_retries)) = false := by
          simp [hat]
        simp only [hguard, if_false, Bool.false_eq_true]
        rw [hfin] at hs
        cases eb with
        | some e => simp [finalAttemptError, hs, hfuel]
        | none => simp [finalAttemptError, hs, hfuel]

/-- C2 (amended): when every reply up to `max_retries` is retryable, the
refresh makes exactly `max_retries + 1` attempts and returns the final
attempt's error: a transport error preserved verbatim, an
`AuthenticationError` with the final response body's message
(`message`/`error`/`""` fallback), or the body-decoding error when that
body is unparsable. The provisional `last_error` ("Token request failed
with status N") is never what is returned. -/
theorem retry_exhaustion
    (cfg : RetryConfig) (server : Nat → ServerReply)
    (cache : Option TokenInfo) (now : Nat)
    (hc : cacheValid cache now = none)
    (hre : ∀ a, a ≤ cfg.max_retries → isRetryableReply (server a) = true) :
    (get_token cfg server cache now).reqs = cfg.max_retries + 1
    ∧ (get_token cfg server cache now).result
        = .error (finalAttemptError (server cfg.max_retries)) := by
  unfold get_token
  simp only [hc]
  obtain ⟨ha, hb⟩ := tokenLoopAux_exhaustion cfg server now hre
    (cfg.max_retries + 1) 0 cfg.initial_delay none [] 0 (by omega) (by omega)
  exact ⟨by rw [hb]; omega, ha⟩

/-- Witness for C2: `max_retries = 2` with a retryable transport timeout
then two `503`s makes 3 attempts and surfaces the final body's message. -/
theorem retry_exhaustion_witness :
    (get_token ⟨2, 1/10, 10, 2⟩
      (fun n => if n = 0 then .transportErr (.transport true false false 7)
                else .response 503 none none (some ⟨some "busy", none, none⟩))
      none 0).reqs = 3
    ∧ (get_token ⟨2, 1/10, 10, 2⟩
      (fun n => if n = 0 then .transportErr (.transport true false false 7)
                else .response 503 none none (some ⟨some "busy", none, none⟩))
      none 0).result = .error (.authentication "busy") :=
  retry_exhaustion ⟨2, 1/10, 10, 2⟩
    (fun n => if n = 0 then .transportErr (.transport true false false 7)
              else .response 503 none none (some ⟨some "busy", none, none⟩))
    none 0 (by decide) (by decide)

/-- Holds exactly on `Authentication` errors. -/
def isAuthenticationError : Auth0Error → Bool
  | .authentication _ => true
  | _ => false

/-- Holds exactly on `Http` errors wrapping a transport-level
`reqwest` error (as opposed to a body-decoding one). -/
def isTransportHttpError : Auth0Error → Bool
  | .http (.transport _ _ _ _) => true
  | _ => false

/-- Evaluates the classifier on the error of a failed result. -/
def errorSatisfies (p : Auth0Error → Bool) : Except Auth0Error String → Bool
  | .error e => p e
  | .ok _ => false

/-- Counterexample to C2 as stated: with `max_retries = 1` and a `503`
whose body is unparsable on every attempt, the refresh makes 2 attempts
but returns the body-decoding error — neither a transport error preserved
verbatim (no transport error was observed) nor an `AuthenticationError`. -/
theorem retry_exhaustion_counterexample :
    (get_token ⟨1, 1/10, 10, 2⟩ (fun _ => .response 503 none none none)
      none 0).reqs = 2
    ∧ (get_token ⟨1, 1/10, 10, 2⟩ (fun _ => .response 503 none none none)
      none 0).result = .error (.http .decode)
    ∧ errorSatisfies isAuthenticationError
        (get_token ⟨1, 1/10, 10, 2⟩ (fun _ => .response 503 none none none)
          none 0).result = false
    ∧ errorSatisfies isTransportHttpError
        (get_token ⟨1, 1/10, 10, 2⟩ (fun _ => .response 503 none none none)
          none 0).result = false := by
  refine ⟨by decide, by decide, by decide, by decide⟩

/-- The backoff-delay dynamics of one loop iteration (client.rs:122-130
and 173-188): entering attempt `attempt` with delay `d`, the loop advances
the delay to `min max_delay (d * multiplier)` (attempt 0 does not
advance), and a `429` reply carrying a parsed integer `retry-after` header
then overrides the advanced value with exactly that many seconds. The
result is the delay entering the next attempt. -/
def nextDelay (cfg : RetryConfig) (reply : ServerReply) (attempt : Nat)
    (d : ℚ) : ℚ :=
  let adv := if 0 < attempt then min cfg.max_delay (d * cfg.multiplier) else d
  match reply with
  | .response status (some ra) _ _ => if status == 429 then (ra : ℚ) else adv
  | _ => adv

/-- The loop's delay variable entering attempt `a` against `server`: the
value slept before attempt `a` (for `a ≥ 1`). -/
def delayAt (cfg : RetryConfig) (server : Nat → ServerReply) : Nat → ℚ
  | 0 => cfg.initial_delay
  | a + 1 => nextDelay cfg (server a) a (delayAt cfg server a)

/-- The loop's sleep history follows the `delayAt` schedule with overrides
included: the sleep at position `j` (before attempt `j + 1`) is
`delayAt (j + 1)`. -/
theorem tokenLoopAux_sleeps_delayAt
    (cfg : RetryConfig) (server : Nat → ServerReply) (now : Nat) :
    ∀ (fuel attempt : Nat) (delay : ℚ) (lastError : Option Auth0Error)
      (sleeps : List ℚ) (reqs : Nat),
      sleeps = (List.range (attempt - 1)).map (fun j => delayAt cfg server (j + 1)) →
      delay = delayAt cfg server attempt →
      ∃ L, (tokenLoopAux cfg server now fuel attempt delay lastError sleeps reqs).sleeps
            = (List.range L).map (fun j => delayAt cfg server (j + 1)) := by
  intro fuel
  induction fuel with
  | zero =>
    intro attempt delay lastError sleeps reqs hsl hd
    exact ⟨attempt - 1, by rw [tokenLoopAux]; exact hsl⟩
  | succ fuel ih =>
    intro attempt delay lastError sleeps reqs hsl hd
    rw [tokenLoopAux]
    have hacc : (if 0 < attempt then sleeps ++ [delay] else sleeps)
        = (List.range attempt).map (fun j => delayAt cfg server (j + 1)) := by
      cases attempt with
      | zero => simpa using hsl
      | succ k =>
        simp only [Nat.succ_sub_one] at hsl hd
        simp [hsl, hd, List.range_succ]
    cases hs : server attempt with
    | transportErr te =>
      have hnext : delayAt cfg server (attempt + 1)
          = (if 0 < attempt then min cfg.max_delay (delay * cfg.multiplier)
             else delay) := by
        rw [delayAt, hs, hd]
        simp [nextDelay]
      by_cases hr : (is_retryable_error te && decide (attempt < cfg.max_retries)) = true
      · simp only [hr, if_true]
        refine ih (attempt + 1) _ _ _ (reqs + 1) ?_ ?_
        · simpa using hacc
        · simpa using hnext.symm
      · simp only [hr, if_false, Bool.false_eq_true]
        exact ⟨attempt, hacc⟩
    | response status ra tb eb =>
      by_cases hsucc : isSuccess status = true
      · simp only [hsucc, if_true]
        cases tb with
        | some tr => exact ⟨attempt, hacc⟩
        | none => exact ⟨attempt, hacc⟩
      · simp only [hsucc, if_false, Bool.false_eq_true]
        by_cases hr : (is_retryable_status status && decide (attempt < cfg.max_retries)) = true
        · simp only [hr, if_true]
          cases ra with
          | some v =>
            by_cases h429 : (status == 429) = true
            · have hnext : delayAt cfg server (attempt + 1) = (v : ℚ) := by
                rw [delayAt, hs]
                simp [nextDelay, h429]
              simp only [h429, if_true]
              refine ih (attempt + 1) _ _ _ (reqs + 1) ?_ ?_
              · simpa using hacc
              · simpa using hnext.symm
            · have hnext : delayAt cfg server (attempt + 1)
                  = (if 0 < attempt then min cfg.max_delay (delay * cfg.multiplier)
                     else delay) := by
                rw [delayAt, hs, hd]
                simp [nextDelay, h429]
              simp only [h429, if_false, Bool.false_eq_true]
              refine ih (attempt + 1) _ _ _ (reqs + 1) ?_ ?_
              · simpa using hacc
              · simpa using hnext.symm
          | none =>
            have hnext : delayAt cfg server (attempt + 1)
                = (if 0 < attempt then min cfg.max_delay (delay * cfg.multiplier)
                   else delay) := by
              rw [delayAt, hs, hd]
              simp [nextDelay]
            by_cases h429 : (status == 429) = true
            · simp only [h429, if_true]
              refine ih (attempt + 1) _ _ _ (reqs + 1) ?_ ?_
              · simpa using hacc
              · simpa using hnext.symm
            · simp only [h429, if_false, Bool.false_eq_true]
              refine ih (attempt + 1) _ _ _ (reqs + 1) ?_ ?_
              · simpa using hacc
              · simpa using hnext.symm
        · simp only [hr, if_false, Bool.false_eq_true]
          cases eb with
          | some e => exact ⟨attempt, hacc⟩
          | none => exact ⟨attempt, hacc⟩

/-- While every reply up to attempt `a < max_retries` is retryable, the
loop keeps continuing, so the sleep before attempt `a + 1` actually
happens: entering any attempt `≤ a + 1`, the final sleep count covers the
accumulator plus one sleep per remaining attempt up to `a + 1`. -/
theorem tokenLoopAux_sleeps_length
    (cfg : RetryConfig) (server : Nat → ServerReply) (now : Nat) (a : Nat)
    (ha : a < cfg.max_retries)
    (hre : ∀ j, j ≤ a → isRetryableReply (server j) = true) :
    ∀ (fuel attempt : Nat) (delay : ℚ) (lastError : Option Auth0Error)
      (sleeps : List ℚ) (reqs : Nat),
      attempt ≤ a + 1 → attempt + fuel = cfg.max_retries + 1 →
      sleeps.length + ((a + 1 - attempt) + (if attempt = 0 then 0 else 1))
        ≤ (tokenLoopAux cfg server now fuel attempt delay lastError sleeps reqs).sleeps.length := by
  intro fuel
  induction fuel with
  | zero => intro attempt delay lastError sleeps reqs hle hsum; omega
  | succ fuel ih =>
    intro attempt delay lastError sleeps reqs hle hsum
    by_cases hend : attempt = a + 1
    · obtain ⟨t, ht⟩ := tokenLoopAux_sleeps_cons cfg server now (fuel + 1) attempt
        delay lastError sleeps reqs (by omega) (by omega)
      rw [ht]
      have h0 : ¬(attempt = 0) := by omega
      simp only [h0, if_false, List.length_append, List.length_cons]
      omega
    · have hlt : attempt ≤ a := by omega
      have hr := hre attempt hlt
      rw [tokenLoopAux]
      cases hs : server attempt with
      | transportErr te =>
        have hte : is_retryable_error te = true := by
          simpa [isRetryableReply, hs] using hr
        have hguard : (is_retryable_error te && decide (attempt < cfg.max_retries)) = true := by
          simp only [hte, Bool.true_and, decide_eq_true_eq]
          omega
        simp only [hguard, if_true]
        refine le_trans ?_ (ih (attempt + 1) _ _ _ (reqs + 1) (by omega) (by omega))
        by_cases h0 : attempt = 0
        · subst h0
          simp
        · have hpos : 0 < attempt := by omega
          simp only [hpos, if_true, h0, if_false, List.length_append,
            List.length_cons, List.length_nil]
          rw [if_neg (by omega : ¬(attempt + 1 = 0))]
          omega
      | response status ra tb eb =>
        have hrs : is_retryable_status status = true := by
          simpa [isRetryableReply, hs] using hr
        have hsucc : isSuccess status = false := retryable_not_success status hrs
        simp only [hsucc, if_false, Bool.false_eq_true]
        have hguard : (is_retryable_status status && decide (attempt < cfg.max_retries)) = true := by
          simp only [hrs, Bool.true_and, decide_eq_true_eq]
          omega
        simp only [hguard, if_true]
        refine le_trans ?_ (ih (attempt + 1) _ _ _ (reqs + 1) (by omega) (by omega))
        by_cases h0 : attempt = 0
        · subst h0
          simp
        · have hpos : 0 < attempt := by omega
          simp only [hpos, if_true, h0, if_false, List.length_append,
            List.length_cons, List.length_nil]
          rw [if_neg (by omega : ¬(attempt + 1 = 0))]
          omega

/-- C4: at every attempt index `a`, a `429` reply carrying a parsed
integer `retry-after` header makes the delay entering attempt `a + 1`
exactly that header value in seconds (conjunct 2): the multiplier-advanced,
`max_delay`-capped schedule value is discarded and the header value itself
is never capped (the conclusion is the bare cast of the header, for every
value); with no parsed header the default advanced backoff applies
(conjunct 3). Conjunct 1 identifies every delay the run actually sleeps
with this schedule, and conjunct 4 exhibits the overridden sleep itself:
while attempts remain and the run reaches the `429` at attempt `a`, the
delay slept before attempt `a + 1` is exactly the header value. -/
theorem retry_after_override
    (cfg : RetryConfig) (server : Nat → ServerReply)
    (cache : Option TokenInfo) (now : Nat)
    (hc : cacheValid cache now = none) :
    (∀ (j : Nat) (d : ℚ),
      (get_token cfg server cache now).sleeps[j]? = some d →
      d = delayAt cfg server (j + 1))
    ∧ (∀ (a ra : Nat) (tb : Option TokenResponse) (eb : Option Auth0ApiError),
      server a = .response 429 (some ra) tb eb →
      delayAt cfg server (a + 1) = (ra : ℚ))
    ∧ (∀ (a : Nat) (tb : Option TokenResponse) (eb : Option Auth0ApiError),
      server a = .response 429 none tb eb →
      delayAt cfg server (a + 1)
        = (if 0 < a then min cfg.max_delay (delayAt cfg server a * cfg.multiplier)
           else delayAt cfg server a))
    ∧ (∀ (a ra : Nat) (tb : Option TokenResponse) (eb : Option Auth0ApiError),
      a < cfg.max_retries →
      (∀ j, j ≤ a → isRetryableReply (server j) = true) →
      server a = .response 429 (some ra) tb eb →
      (get_token cfg server cache now).sleeps[a]? = some (ra : ℚ)) := by
  have hG : (get_token cfg server cache now).sleeps
      = (tokenLoopAux cfg server now (cfg.max_retries + 1) 0
          cfg.initial_delay none [] 0).sleeps := by
    unfold get_token
    simp [hc]
  have key : ∀ (j : Nat) (d : ℚ),
      (get_token cfg server cache now).sleeps[j]? = some d →
      d = delayAt cfg server (j + 1) := by
    intro j d hjd
    rw [hG] at hjd
    obtain ⟨L, hL⟩ := tokenLoopAux_sleeps_delayAt cfg server now
      (cfg.max_retries + 1) 0 cfg.initial_delay none [] 0 (by simp) rfl
    rw [hL, List.getElem?_map] at hjd
    cases hr : (List.range L)[j]? with
    | none => rw [hr] at hjd; simp at hjd
    | some v =>
      rw [hr] at hjd
      obtain ⟨hlen, hval⟩ := List.getElem?_eq_some.mp hr
      rw [List.getElem_range] at hval
      simp only [← hval, Option.map_some] at hjd
      exact (Option.some_inj.mp hjd).symm
  have hovr : ∀ (a ra : Nat) (tb : Option TokenResponse) (eb : Option Auth0ApiError),
      server a = .response 429 (some ra) tb eb →
      delayAt cfg server (a + 1) = (ra : ℚ) := by
    intro a ra tb eb hs
    rw [delayAt, hs]
    simp [nextDelay]
  refine ⟨key, hovr, ?_, ?_⟩
  · intro a tb eb hs
    rw [delayAt, hs]
    simp [nextDelay]
  · intro a ra tb eb haM hre hs
    have hlen := tokenLoopAux_sleeps_length cfg server now a haM hre
      (cfg.max_retries + 1) 0 cfg.initial_delay none [] 0 (by omega) (by omega)
    have hlt : a < (get_token cfg server cache now).sleeps.length := by
      rw [hG]
      simp only [List.length_nil] at hlen
      omega
    have hsome := List.getElem?_eq_getElem hlt
    rw [hsome, key a _ hsome, hovr a ra tb eb hs]

/-- Witness for C4 at a non-initial attempt: with retries 2, initial delay
1 s, max delay 10 s, multiplier 2, a 503 on attempt 0 and a 429 with
`retry-after: 100` on attempt 1, the delay slept before attempt 2 is
exactly 100 s — displacing the schedule value min(10, 1·2) = 2 s and far
above `max_delay` — and with no parsed header on the attempt-1 `429` the
default advanced backoff applies instead. -/
theorem retry_after_override_witness :
    (get_token ⟨2, 1, 10, 2⟩
      (fun n => if n = 0 then .response 503 none none none
                else if n = 1 then .response 429 (some 100) none none
                else .response 200 none (some ⟨"tok", 3600⟩) none)
      none 0).sleeps[1]? = some (100 : ℚ)
    ∧ delayAt ⟨2, 1, 10, 2⟩
        (fun n => if n = 0 then .response 503 none none none
                  else if n = 1 then .response 429 none none none
                  else .response 200 none (some ⟨"tok", 3600⟩) none) 2
      = min (10 : ℚ)
          (delayAt ⟨2, 1, 10, 2⟩
            (fun n => if n = 0 then .response 503 none none none
                      else if n = 1 then .response 429 none none none
                      else .response 200 none (some ⟨"tok", 3600⟩) none) 1 * 2) :=
  ⟨(retry_after_override ⟨2, 1, 10, 2⟩
      (fun n => if n = 0 then .response 503 none none none
                else if n = 1 then .response 429 (some 100) none none
                else .response 200 none (some ⟨"tok", 3600⟩) none)
      none 0 (by decide)).2.2.2 1 100 none none (by decide) (by decide) rfl,
   (retry_after_override ⟨2, 1, 10, 2⟩
      (fun n => if n = 0 then .response 503 none none none
                else if n = 1 then .response 429 none none none
                else .response 200 none (some ⟨"tok", 3600⟩) none)
      none 0 (by decide)).2.2.1 1 none none rfl⟩

/-- The delay variable's value on entering attempt `j + 1`
(client.rs:119, 124-129): starts at `initial_delay`, then
`min max_delay (· * multiplier)` after each sleep. -/
def backoffIter (cfg : RetryConfig) : Nat → ℚ
  | 0 => cfg.initial_delay
  | j + 1 => min cfg.max_delay (backoffIter cfg j * cfg.multiplier)

/-- Holds exactly on a `429` reply carrying a parsed integer
`retry-after` header — the only reply that overrides the backoff delay. -/
def hasRetryAfterOverride : ServerReply → Bool
  | .response 429 (some _) _ _ => true
  | _ => false

theorem backoffIter_closed (cfg : RetryConfig)
    (hm : 1 ≤ cfg.multiplier) (h0 : 0 ≤ cfg.initial_delay)
    (him : cfg.initial_delay ≤ cfg.max_delay) :
    ∀ j, backoffIter cfg j
      = min cfg.max_delay (cfg.initial_delay * cfg.multiplier ^ j) := by
  intro j
  induction j with
  | zero => simp [backoffIter, min_eq_right him]
  | succ j ih =>
    have hmax : (0 : ℚ) ≤ cfg.max_delay := le_trans h0 him
    have hx : (0 : ℚ) ≤ cfg.initial_delay * cfg.multiplier ^ j :=
      mul_nonneg h0 (pow_nonneg (le_trans zero_le_one hm) j)
    rw [backoffIter, ih, pow_succ, ← mul_assoc]
    rcases le_or_lt (cfg.initial_delay * cfg.multiplier ^ j) cfg.max_delay with hle | hlt
    · rw [min_eq_right hle]
    · rw [min_eq_left hlt.le,
        min_eq_left (le_mul_of_one_le_right hmax hm),
        min_eq_left (le_trans hlt.le (le_mul_of_one_le_right hx hm))]

/-- Absent any retry-after override, the loop's sleep history is an
initial segment of the `backoffIter` schedule. -/
theorem tokenLoopAux_sleeps_schedule
    (cfg : RetryConfig) (server : Nat → ServerReply) (now : Nat)
    (hnov : ∀ a, hasRetryAfterOverride (server a) = false) :
    ∀ (fuel attempt : Nat) (delay : ℚ) (lastError : Option Auth0Error)
      (sleeps : List ℚ) (reqs : Nat),
      sleeps = (List.range (attempt - 1)).map (backoffIter cfg) →
      delay = backoffIter cfg (attempt - 1) →
      ∃ L, (tokenLoopAux cfg server now fuel attempt delay lastError sleeps reqs).sleeps
            = (List.range L).map (backoffIter cfg) := by
  intro fuel
  induction fuel with
  | zero =>
    intro attempt delay lastError sleeps reqs hsl hd
    exact ⟨attempt - 1, by rw [tokenLoopAux]; exact hsl⟩
  | succ fuel ih =>
    intro attempt delay lastError sleeps reqs hsl hd
    rw [tokenLoopAux]
    have hacc : (if 0 < attempt then sleeps ++ [delay] else sleeps)
        = (List.range attempt).map (backoffIter cfg) := by
      cases attempt with
      | zero => simpa using hsl
      | succ k =>
        simp only [Nat.succ_sub_one] at hsl hd
        simp [hsl, hd, List.range_succ]
    have hdel : (if 0 < attempt then min cfg.max_delay (delay * cfg.multiplier) else delay)
        = backoffIter cfg attempt := by
      cases attempt with
      | zero => simpa using hd
      | succ k =>
        simp only [Nat.succ_sub_one] at hd
        simp [hd, backoffIter]
    cases hs : server attempt with
    | transportErr te =>
      by_cases hr : (is_retryable_error te && decide (attempt < cfg.max_retries)) = true
      · simp only [hr, if_true]
        exact ih (attempt + 1) _ _ _ (reqs + 1) (by simpa using hacc) (by simpa using hdel)
      · simp only [hr, if_false, Bool.false_eq_true]
        exact ⟨attempt, hacc⟩
    | response status ra tb eb =>
      have hover := hnov attempt
      rw [hs] at hover
      by_cases hsucc : isSuccess status = true
      · simp only [hsucc, if_true]
        cases tb with
        | some tr => exact ⟨attempt, hacc⟩
        | none => exact ⟨attempt, hacc⟩
      · simp only [hsucc, if_false, Bool.false_eq_true]
        by_cases hr : (is_retryable_status status && decide (attempt < cfg.max_retries)) = true
        · simp only [hr, if_true]
          by_cases h429 : (status == 429) = true
          · have hst : status = 429 := by simpa using h429
            subst hst
            cases ra with
            | some v => simp [hasRetryAfterOverride] at hover
            | none =>
              simp only [h429, if_true]
              refine ih (attempt + 1) _ _ _ (reqs + 1) ?_ ?_
              · simpa using hacc
              · simpa using hdel
          · simp only [h429, if_false, Bool.false_eq_true]
            refine ih (attempt + 1) _ _ _ (reqs + 1) ?_ ?_
            · simpa using hacc
            · simpa using hdel
        · simp only [hr, if_false, Bool.false_eq_true]
          cases eb with
          | some e => exact ⟨attempt, hacc⟩
          | none => exact ⟨attempt, hacc⟩

/-- C6 (amended): if `multiplier ≥ 1` and `initial_delay ≤ max_delay`,
then absent any retry-after override the delay slept before attempt
`k = j + 1` is exactly `min max_delay (initial_delay * multiplier ^ j)`,
and the slept sequence is non-decreasing and capped at `max_delay`.
(When `initial_delay > max_delay` the first sleep is `initial_delay`
itself, uncapped, and the closed formula fails at `k = 1`.) -/
theorem backoff_delay_schedule
    (cfg : RetryConfig) (server : Nat → ServerReply)
    (cache : Option TokenInfo) (now : Nat)
    (hm : 1 ≤ cfg.multiplier) (h0 : 0 ≤ cfg.initial_delay)
    (him : cfg.initial_delay ≤ cfg.max_delay)
    (hnov : ∀ a, hasRetryAfterOverride (server a) = false) :
    (∀ (j : Nat) (d : ℚ), (get_token cfg server cache now).sleeps[j]? = some d →
      d = min cfg.max_delay (cfg.initial_delay * cfg.multiplier ^ j))
    ∧ (∀ (j : Nat) (d d' : ℚ), (get_token cfg server cache now).sleeps[j]? = some d →
      (get_token cfg server cache now).sleeps[j + 1]? = some d' → d ≤ d')
    ∧ (∀ (j : Nat) (d : ℚ), (get_token cfg server cache now).sleeps[j]? = some d →
      d ≤ cfg.max_delay) := by
  have key : ∀ (j : Nat) (d : ℚ), (get_token cfg server cache now).sleeps[j]? = some d →
      d = min cfg.max_delay (cfg.initial_delay * cfg.multiplier ^ j) := by
    intro j d hjd
    unfold get_token at hjd
    cases hc : cacheValid cache now with
    | some tok => simp [hc] at hjd
    | none =>
      simp only [hc] at hjd
      obtain ⟨L, hL⟩ := tokenLoopAux_sleeps_schedule cfg server now hnov
        (cfg.max_retries + 1) 0 cfg.initial_delay none [] 0 (by simp) rfl
      rw [hL, List.getElem?_map] at hjd
      cases hr : (List.range L)[j]? with
      | none => rw [hr] at hjd; simp at hjd
      | some v =>
        rw [hr] at hjd
        obtain ⟨hlen, hval⟩ := List.getElem?_eq_some.mp hr
        rw [List.getElem_range] at hval
        simp only [← hval, Option.map_some] at hjd
        rw [← Option.some_inj.mp hjd, backoffIter_closed cfg hm h0 him]
  refine ⟨key, ?_, ?_⟩
  · intro j d d' hd hd'
    rw [key j d hd, key (j + 1) d' hd']
    refine min_le_min le_rfl ?_
    exact mul_le_mul_of_nonneg_left
      (pow_le_pow_right₀ hm (Nat.le_succ j)) h0
  · intro j d hd
    rw [key j d hd]
    exact min_le_left _ _

/-- Witness for C6: with retries `3`, initial delay `1`, max delay `10`,
multiplier `2` and an always-503 server, the first sleep (1 second) equals
the closed-form `min max_delay (initial_delay * multiplier ^ 0)`. -/
theorem backoff_delay_schedule_witness :
    (1 : ℚ) = min (10 : ℚ) (1 * 2 ^ (0 : Nat)) :=
  (backoff_delay_schedule ⟨3, 1, 10, 2⟩
    (fun _ => .response 503 none none (some ⟨some "busy", none, none⟩)) none 0
    (by norm_num : (1 : ℚ) ≤ 2) (by norm_num : (0 : ℚ) ≤ 1)
    (by norm_num : (1 : ℚ) ≤ 10) (fun _ => rfl)).1 0 1 (by decide)

/-- Counterexample to C6 as stated: with `initial_delay = 20` and
`max_delay = 10` the delay slept before attempt 1 is 20, while the claim's
formula `min(max_delay, initial_delay * multiplier^0)` gives 10. -/
theorem backoff_delay_schedule_counterexample :
    (get_token ⟨1, 20, 10, 2⟩
      (fun _ => .response 503 none none (some ⟨some "busy", none, none⟩))
      none 0).sleeps = [20]
    ∧ min (10 : ℚ) (20 * 2 ^ 0) = 10
    ∧ (20 : ℚ) ≠ 10 := by
  refine ⟨by decide, by rw [min_eq_left (by norm_num)], by norm_num⟩

/-- The byte-safety predicate of `urlencoding::encode`: bytes kept verbatim
are exactly `[0-9A-Za-z._~-]`; every other byte becomes `%XX`. -/
def urlSafeByte (b : Nat) : Bool :=
  (48 ≤ b && b ≤ 57) || (65 ≤ b && b ≤ 90) || (97 ≤ b && b ≤ 122)
    || b == 45 || b == 46 || b == 95 || b == 126

/-- Uppercase hexadecimal digit byte for a nibble, as emitted by
`urlencoding::encode`. -/
def hexUpper (n : Nat) : Nat :=
  if n < 10 then 48 + n else 55 + n

/-- Embeds `urlencoding::encode` at the byte level: safe bytes pass through,
every other byte becomes `%` followed by its two uppercase hex digits. -/
def urlencode : List Nat → List Nat
  | [] => []
  | b :: rest =>
    (if urlSafeByte b then [b] else [37, hexUpper (b / 16), hexUpper (b % 16)])
      ++ urlencode rest

/-- Value of a hexadecimal digit byte (either case), `none` otherwise. -/
def hexVal (c : Nat) : Option Nat :=
  if 48 ≤ c ∧ c ≤ 57 then some (c - 48)
  else if 65 ≤ c ∧ c ≤ 70 then some (c - 55)
  else if 97 ≤ c ∧ c ≤ 102 then some (c - 87)
  else none

/-- Standard percent-decoding at the byte level (as performed by
`urlencoding::decode` / the test server's path matcher): `%XX` with two
hex digits decodes to one byte; malformed sequences pass through. -/
def urldec : List Nat → List Nat
  | [] => []
  | b :: rest =>
    if b = 37 then
      match rest with
      | h :: l :: rest2 =>
        match hexVal h, hexVal l with
        | some hv, some lv => (16 * hv + lv) :: urldec rest2
        | _, _ => b :: urldec (h :: l :: rest2)
      | [h] => b :: urldec [h]
      | [] => b :: urldec []
    else b :: urldec rest
termination_by l => l.length
decreasing_by all_goals simp_arith

/-- UTF-8 bytes of the literal `"api/v2/clients/"` interpolated by
`ClientsApi::get`/`update`/`delete` (api/clients.rs:104,158,180). -/
def clientsPathPrefix : List Nat :=
  [97, 112, 105, 47, 118, 50, 47, 99, 108, 105, 101, 110, 116, 115, 47]

/-- UTF-8 bytes of the literal `"api/v2/users/"` interpolated by
`UsersApi::get`/`update`/`delete` (api/users.rs:166,233,263). -/
def usersPathPrefix : List Nat :=
  [97, 112, 105, 47, 118, 50, 47, 117, 115, 101, 114, 115, 47]

/-- Embeds the path `api/v2/clients/` followed by the encoded id
(api/clients.rs:104) over the identifier's bytes. -/
def clientsGetPath (id : List Nat) : List Nat :=
  clientsPathPrefix ++ urlencode id

/-- Embeds the path `api/v2/users/` followed by the encoded id
(api/users.rs:166) over the identifier's bytes. -/
def usersGetPath (id : List Nat) : List Nat :=
  usersPathPrefix ++ urlencode id

theorem hexVal_hexUpper : ∀ x, x < 16 → hexVal (hexUpper x) = some x := by decide

theorem hexUpper_ne_slash : ∀ x, x < 16 → hexUpper x ≠ 47 := by decide

theorem urldec_cons_safe (b : Nat) (rest : List Nat) (hb : ¬(b = 37)) :
    urldec (b :: rest) = b :: urldec rest := by
  rw [urldec.eq_def]
  simp only [if_neg hb]

theorem urldec_percent (h l : Nat) (rest : List Nat) (hv lv : Nat)
    (hh : hexVal h = some hv) (hl : hexVal l = some lv) :
    urldec (37 :: h :: l :: rest) = (16 * hv + lv) :: urldec rest := by
  rw [urldec.eq_def]
  simp [hh, hl]

/-- C9: the by-id paths interpolate the percent-encoding of the identifier;
the encoded segment never contains a raw `/` (byte 47), and percent-decoding
it recovers exactly the original identifier bytes. -/
theorem path_encoding_round_trip (id : List Nat) (h : ∀ b ∈ id, b < 256) :
    clientsGetPath id = clientsPathPrefix ++ urlencode id
    ∧ usersGetPath id = usersPathPrefix ++ urlencode id
    ∧ (∀ c ∈ urlencode id, c ≠ 47)
    ∧ urldec (urlencode id) = id := by
  refine ⟨rfl, rfl, ?_, ?_⟩
  · induction id with
    | nil => intro c hc; simp [urlencode] at hc
    | cons b rest ih =>
      intro c hc
      have hrest := ih (fun x hx => h x (List.mem_cons_of_mem b hx))
      rw [urlencode] at hc
      have hb : b < 256 := h b (List.mem_cons_self b rest)
      by_cases hsafe : urlSafeByte b = true
      · simp only [hsafe, if_true, List.cons_append, List.nil_append,
          List.mem_cons] at hc
        rcases hc with rfl | hc
        · intro hc47
          rw [hc47] at hsafe
          exact absurd hsafe (by decide)
        · exact hrest c hc
      · simp only [hsafe, if_false, Bool.false_eq_true, List.cons_append,
          List.nil_append, List.mem_cons] at hc
        rcases hc with rfl | rfl | rfl | hc
        · decide
        · exact hexUpper_ne_slash (b / 16) (by omega)
        · exact hexUpper_ne_slash (b % 16) (by omega)
        · exact hrest c hc
  · induction id with
    | nil => simp [urlencode, urldec]
    | cons b rest ih =>
      have hb : b < 256 := h b (List.mem_cons_self b rest)
      have hrest := ih (fun x hx => h x (List.mem_cons_of_mem b hx))
      rw [urlencode]
      by_cases hsafe : urlSafeByte b = true
      · have hb37 : ¬(b = 37) := by
          intro e
          rw [e] at hsafe
          exact absurd hsafe (by decide)
        simp only [hsafe, if_true, List.cons_append, List.nil_append]
        rw [urldec_cons_safe b _ hb37, hrest]
      · simp only [hsafe, if_false, Bool.false_eq_true, List.cons_append,
          List.nil_append]
        rw [urldec_percent _ _ _ _ _
          (hexVal_hexUpper (b / 16) (by omega)) (hexVal_hexUpper (b % 16) (by omega))]
        rw [hrest, Nat.div_add_mod]

/-- Witness for C9: the identifier `"client/with/slashes"` encodes to
`"client%2Fwith%2Fslashes"` and decodes back to itself. -/
theorem path_encoding_round_trip_witness :
    urlencode [99, 108, 105, 101, 110, 116, 47, 119, 105, 116, 104, 47,
        115, 108, 97, 115, 104, 101, 115]
      = [99, 108, 105, 101, 110, 116, 37, 50, 70, 119, 105, 116, 104, 37, 50, 70,
        115, 108, 97, 115, 104, 101, 115]
    ∧ urldec (urlencode [99, 108, 105, 101, 110, 116, 47, 119, 105, 116, 104, 47,
        115, 108, 97, 115, 104, 101, 115])
      = [99, 108, 105, 101, 110, 116, 47, 119, 105, 116, 104, 47,
        115, 108, 97, 115, 104, 101, 115] :=
  ⟨by decide,
   (path_encoding_round_trip
     [99, 108, 105, 101, 110, 116, 47, 119, 105, 116, 104, 47,
      115, 108, 97, 115, 104, 101, 115] (by decide)).2.2.2⟩

namespace SingleFlight

/-- Program counter of one caller executing `get_token`'s concurrency
protocol (client.rs:91-170): the initial read-locked cache check, the wait
on the single-permit `Semaphore`, the double-checked cache re-read after
acquiring the permit, the network refresh (request, slot write, permit
release), and completion with the returned token string. -/
inductive PC where
  | start
  | waiting
  | recheck
  | fetching
  | done (token : String)
  deriving DecidableEq, Repr

/-- Shared state of `n` concurrent callers of one `ManagementClient`: the
`Arc<RwLock<Option<TokenInfo>>>` slot, whether the size-1
`token_refresh_semaphore` permit is held, each caller's program counter,
and the number of outbound token-endpoint requests made so far. -/
structure State (n : Nat) where
  cache : Option TokenInfo
  permitHeld : Bool
  pcs : Fin n → PC
  reqs : Nat

/-- The program-counter map updated at caller `i`. -/
def State.setPC {n : Nat} (s : State n) (i : Fin n) (p : PC) : Fin n → PC :=
  fun j => if j = i then p else s.pcs j

theorem State.setPC_self {n : Nat} (s : State n) (i : Fin n) (p : PC) :
    s.setPC i p i = p := by simp [State.setPC]

theorem State.setPC_ne {n : Nat} (s : State n) (i j : Fin n) (p : PC)
    (h : ¬(j = i)) : s.setPC i p j = s.pcs j := by simp [State.setPC, h]

/-- Interleaved small-step semantics of `n` callers racing through
`get_token` against a token endpoint that answers every request
successfully with token `tok` and expiry `expAt`; `now` is the (fixed)
current instant during the race. Each constructor is one atomic
observable action of client.rs:91-170: the fast-path read (hit returns,
miss proceeds to the semaphore), the permit acquire, the double-checked
re-read (hit releases the permit and returns), and the refresh (one
outbound request, wholesale slot replacement, permit release, return). -/
inductive Step (now : Nat) (tok : String) (expAt : Nat) {n : Nat} :
    State n → State n → Prop where
  | readHit {s : State n} (i : Fin n) (t : String) :
      s.pcs i = .start → cacheValid s.cache now = some t →
      Step now tok expAt s ⟨s.cache, s.permitHeld, s.setPC i (.done t), s.reqs⟩
  | readMiss {s : State n} (i : Fin n) :
      s.pcs i = .start → cacheValid s.cache now = none →
      Step now tok expAt s ⟨s.cache, s.permitHeld, s.setPC i .waiting, s.reqs⟩
  | acquire {s : State n} (i : Fin n) :
      s.pcs i = .waiting → s.permitHeld = false →
      Step now tok expAt s ⟨s.cache, true, s.setPC i .recheck, s.reqs⟩
  | recheckHit {s : State n} (i : Fin n) (t : String) :
      s.pcs i = .recheck → cacheValid s.cache now = some t →
      Step now tok expAt s ⟨s.cache, false, s.setPC i (.done t), s.reqs⟩
  | recheckMiss {s : State n} (i : Fin n) :
      s.pcs i = .recheck → cacheValid s.cache now = none →
      Step now tok expAt s ⟨s.cache, s.permitHeld, s.setPC i .fetching, s.reqs⟩
  | fetch {s : State n} (i : Fin n) :
      s.pcs i = .fetching →
      Step now tok expAt s
        ⟨some ⟨tok, expAt⟩, false, s.setPC i (.done tok), s.reqs + 1⟩

/-- All callers at the initial cache read, slot holding `c₀`, permit free,
no requests made. -/
def init (n : Nat) (c₀ : Option TokenInfo) : State n :=
  ⟨c₀, false, fun _ => .start, 0⟩

/-- Reachability under any interleaving of the callers' steps. -/
def Reachable (now : Nat) (tok : String) (expAt : Nat) {n : Nat}
    (s t : State n) : Prop :=
  Relation.ReflTransGen (Step now tok expAt) s t

/-- Caller `i` is inside the single-permit critical section. -/
def inCrit {n : Nat} (s : State n) (i : Fin n) : Prop :=
  s.pcs i = .recheck ∨ s.pcs i = .fetching

/-- The single-flight invariant: the slot is either still the initial
(invalid) value with no request made, or holds the refreshed token with
exactly one request made; the critical section holds at most one caller
and implies the permit is held; a fetching caller means no request has
happened yet; and a finished caller finished with `tok` after exactly one
request. -/
def Inv (now : Nat) (tok : String) (expAt : Nat) (c₀ : Option TokenInfo)
    {n : Nat} (s : State n) : Prop :=
  ((s.reqs = 0 ∧ s.cache = c₀) ∨ (s.reqs = 1 ∧ s.cache = some ⟨tok, expAt⟩))
  ∧ (∀ i j, inCrit s i → inCrit s j → i = j)
  ∧ (∀ i, inCrit s i → s.permitHeld = true)
  ∧ (∀ i, s.pcs i = .fetching → s.reqs = 0)
  ∧ (∀ i t, s.pcs i = .done t → t = tok ∧ s.reqs = 1)

theorem inv_init (now : Nat) (tok : String) (expAt : Nat)
    (c₀ : Option TokenInfo) (n : Nat) :
    Inv now tok expAt c₀ (init n c₀) := by
  refine ⟨Or.inl ⟨rfl, rfl⟩, ?_, ?_, ?_, ?_⟩
  · intro i j hi _
    rcases hi with hi | hi <;> exact absurd hi (by simp [init])
  · intro i hi
    rcases hi with hi | hi <;> exact absurd hi (by simp [init])
  · intro i hi
    exact absurd hi (by simp [init])
  · intro i t ht
    exact absurd ht (by simp [init])

theorem pcs_mk_eq_iff {n : Nat} (s : State n) (i j : Fin n) (p q : PC)
    (c : Option TokenInfo) (b : Bool) (r : Nat) :
    (⟨c, b, s.setPC i p, r⟩ : State n).pcs j = q
      ↔ (if j = i then p = q else s.pcs j = q) := by
  show s.setPC i p j = q ↔ _
  unfold State.setPC
  by_cases hji : j = i <;> simp [hji]

theorem inCrit_mk_iff {n : Nat} (s : State n) (i j : Fin n) (p : PC)
    (c : Option TokenInfo) (b : Bool) (r : Nat) :
    inCrit (⟨c, b, s.setPC i p, r⟩ : State n) j
      ↔ (if j = i then (p = PC.recheck ∨ p = PC.fetching) else inCrit s j) := by
  unfold inCrit
  rw [pcs_mk_eq_iff s i j p PC.recheck c b r, pcs_mk_eq_iff s i j p PC.fetching c b r]
  by_cases hji : j = i <;> simp [hji]

theorem inv_step {n : Nat} (now : Nat) (tok : String) (expAt : Nat)
    (c₀ : Option TokenInfo) (hexp : now < expAt)
    (hc₀ : cacheValid c₀ now = none) (s s' : State n)
    (hinv : Inv now tok expAt c₀ s) (hstep : Step now tok expAt s s') :
    Inv now tok expAt c₀ s' := by
  obtain ⟨hA, hB, hC, hD, hE⟩ := hinv
  cases hstep with
  | readHit i t hpc hv =>
    rcases hA with ⟨hreq, hcache⟩ | ⟨hreq, hcache⟩
    · rw [hcache, hc₀] at hv
      exact absurd hv (by simp)
    · have ht : t = tok := by
        rw [hcache] at hv
        simpa [cacheValid, hexp] using hv.symm
      have hmono : ∀ j, inCrit ⟨s.cache, s.permitHeld, s.setPC i (.done t), s.reqs⟩ j
          → inCrit s j := by
        intro j hj
        rw [inCrit_mk_iff] at hj
        by_cases hji : j = i
        · simp [hji] at hj
        · simpa [hji] using hj
      refine ⟨Or.inr ⟨hreq, hcache⟩, ?_, ?_, ?_, ?_⟩
      · intro j k hj hk
        exact hB j k (hmono j hj) (hmono k hk)
      · intro j hj
        exact hC j (hmono j hj)
      · intro j hj
        rw [pcs_mk_eq_iff] at hj
        by_cases hji : j = i
        · simp [hji] at hj
        · exact hD j (by simpa [hji] using hj)
      · intro j u hu
        rw [pcs_mk_eq_iff] at hu
        by_cases hji : j = i
        · simp only [hji, if_true] at hu
          have : t = u := by simpa using hu
          exact ⟨this.symm.trans ht, hreq⟩
        · exact hE j u (by simpa [hji] using hu)
  | readMiss i hpc hv =>
    have hmono : ∀ j, inCrit ⟨s.cache, s.permitHeld, s.setPC i .waiting, s.reqs⟩ j
        → inCrit s j := by
      intro j hj
      rw [inCrit_mk_iff] at hj
      by_cases hji : j = i
      · simp [hji] at hj
      · simpa [hji] using hj
    refine ⟨hA, ?_, ?_, ?_, ?_⟩
    · intro j k hj hk
      exact hB j k (hmono j hj) (hmono k hk)
    · intro j hj
      exact hC j (hmono j hj)
    · intro j hj
      rw [pcs_mk_eq_iff] at hj
      by_cases hji : j = i
      · simp [hji] at hj
      · exact hD j (by simpa [hji] using hj)
    · intro j u hu
      rw [pcs_mk_eq_iff] at hu
      by_cases hji : j = i
      · simp [hji] at hu
      · exact hE j u (by simpa [hji] using hu)
  | acquire i hpc hperm =>
    have hnocrit : ∀ j, ¬inCrit s j := by
      intro j hj
      rw [hC j hj] at hperm
      exact absurd hperm (by simp)
    have honly : ∀ j, inCrit ⟨s.cache, true, s.setPC i .recheck, s.reqs⟩ j → j = i := by
      intro j hj
      rw [inCrit_mk_iff] at hj
      by_cases hji : j = i
      · exact hji
      · exact absurd (by simpa [hji] using hj) (hnocrit j)
    refine ⟨hA, ?_, ?_, ?_, ?_⟩
    · intro j k hj hk
      rw [honly j hj, honly k hk]
    · intro j _
      rfl
    · intro j hj
      rw [pcs_mk_eq_iff] at hj
      by_cases hji : j = i
      · simp [hji] at hj
      · exact hD j (by simpa [hji] using hj)
    · intro j u hu
      rw [pcs_mk_eq_iff] at hu
      by_cases hji : j = i
      · simp [hji] at hu
      · exact hE j u (by simpa [hji] using hu)
  | recheckHit i t hpc hv =>
    rcases hA with ⟨hreq, hcache⟩ | ⟨hreq, hcache⟩
    · rw [hcache, hc₀] at hv
      exact absurd hv (by simp)
    · have ht : t = tok := by
        rw [hcache] at hv
        simpa [cacheValid, hexp] using hv.symm
      have honlyi : ∀ j, inCrit s j → j = i := fun j hj => hB j i hj (Or.inl hpc)
      have hnone : ∀ j, ¬inCrit ⟨s.cache, false, s.setPC i (.done t), s.reqs⟩ j := by
        intro j hj
        rw [inCrit_mk_iff] at hj
        by_cases hji : j = i
        · simp [hji] at hj
        · exact hji (honlyi j (by simpa [hji] using hj))
      refine ⟨Or.inr ⟨hreq, hcache⟩, ?_, ?_, ?_, ?_⟩
      · intro j k hj _
        exact absurd hj (hnone j)
      · intro j hj
        exact absurd hj (hnone j)
      · intro j hj
        rw [pcs_mk_eq_iff] at hj
        by_cases hji : j = i
        · simp [hji] at hj
        · exact hD j (by simpa [hji] using hj)
      · intro j u hu
        rw [pcs_mk_eq_iff] at hu
        by_cases hji : j = i
        · simp only [hji, if_true] at hu
          have : t = u := by simpa using hu
          exact ⟨this.symm.trans ht, hreq⟩
        · exact hE j u (by simpa [hji] using hu)
  | recheckMiss i hpc hv =>
    rcases hA with ⟨hreq, hcache⟩ | ⟨hreq, hcache⟩
    swap
    · rw [hcache] at hv
      simp [cacheValid, hexp] at hv
    have honlyi : ∀ j, inCrit s j → j = i := fun j hj => hB j i hj (Or.inl hpc)
    have honly : ∀ j,
        inCrit ⟨s.cache, s.permitHeld, s.setPC i .fetching, s.reqs⟩ j → j = i := by
      intro j hj
      rw [inCrit_mk_iff] at hj
      by_cases hji : j = i
      · exact hji
      · exact honlyi j (by simpa [hji] using hj)
    refine ⟨Or.inl ⟨hreq, hcache⟩, ?_, ?_, ?_, ?_⟩
    · intro j k hj hk
      rw [honly j hj, honly k hk]
    · intro j _
      exact hC i (Or.inl hpc)
    · intro j _
      exact hreq
    · intro j u hu
      rw [pcs_mk_eq_iff] at hu
      by_cases hji : j = i
      · simp [hji] at hu
      · have h1 := (hE j u (by simpa [hji] using hu)).2
        rw [h1] at hreq
        exact absurd hreq (by simp)
  | fetch i hpc =>
    have hreq : s.reqs = 0 := hD i hpc
    have honlyi : ∀ j, inCrit s j → j = i := fun j hj => hB j i hj (Or.inr hpc)
    have hnone : ∀ j,
        ¬inCrit ⟨some ⟨tok, expAt⟩, false, s.setPC i (.done tok), s.reqs + 1⟩ j := by
      intro j hj
      rw [inCrit_mk_iff] at hj
      by_cases hji : j = i
      · simp [hji] at hj
      · exact hji (honlyi j (by simpa [hji] using hj))
    refine ⟨Or.inr ⟨by simp [hreq], rfl⟩, ?_, ?_, ?_, ?_⟩
    · intro j k hj _
      exact absurd hj (hnone j)
    · intro j hj
      exact absurd hj (hnone j)
    · intro j hj
      rw [pcs_mk_eq_iff] at hj
      by_cases hji : j = i
      · simp [hji] at hj
      · exact absurd (honlyi j (Or.inr (by simpa [hji] using hj))) hji
    · intro j u hu
      rw [pcs_mk_eq_iff] at hu
      by_cases hji : j = i
      · have : tok = u := by simpa [hji] using hu
        exact ⟨this.symm, by simp [hreq]⟩
      · have h1 := (hE j u (by simpa [hji] using hu)).2
        rw [h1] at hreq
        exact absurd hreq (by simp)

theorem inv_reachable {n : Nat} (now : Nat) (tok : String) (expAt : Nat)
    (c₀ : Option TokenInfo) (hexp : now < expAt)
    (hc₀ : cacheValid c₀ now = none) (s : State n)
    (h : Reachable now tok expAt (init n c₀) s) :
    Inv now tok expAt c₀ s := by
  induction h with
  | refl => exact inv_init now tok expAt c₀ n
  | tail _ hstep ih => exact inv_step now tok expAt c₀ hexp hc₀ _ _ ih hstep

end SingleFlight

/-- C1: under any interleaving of `n ≥ 1` concurrent callers racing on an
empty-or-expired cache against a successfully answering token endpoint,
every execution in which all callers finish has made exactly one outbound
token request, and every caller finished with the same token string; a
waiter that re-checks the cache after acquiring the single-permit gate and
finds it refreshed skips the network call (the `recheckHit` transition). -/
theorem single_flight_refresh {n : Nat} (now expAt : Nat) (tok : String)
    (c₀ : Option TokenInfo) (s : SingleFlight.State n)
    (hn : 1 ≤ n) (hexp : now < expAt) (hc₀ : cacheValid c₀ now = none)
    (hreach : SingleFlight.Reachable now tok expAt (SingleFlight.init n c₀) s)
    (hterm : ∀ i, ∃ t, s.pcs i = .done t) :
    s.reqs = 1 ∧ ∀ i, s.pcs i = .done tok := by
  obtain ⟨_, _, _, _, hE⟩ :=
    SingleFlight.inv_reachable now tok expAt c₀ hexp hc₀ s hreach
  obtain ⟨t0, ht0⟩ := hterm ⟨0, hn⟩
  refine ⟨(hE ⟨0, hn⟩ t0 ht0).2, ?_⟩
  intro i
  obtain ⟨t, ht⟩ := hterm i
  rw [ht, (hE i t ht).1]

namespace SingleFlight

/-- One caller, empty cache: the four states of its complete execution. -/
def w0 : State 1 := init 1 none

def w1 : State 1 := ⟨w0.cache, w0.permitHeld, w0.setPC 0 .waiting, w0.reqs⟩

def w2 : State 1 := ⟨w1.cache, true, w1.setPC 0 .recheck, w1.reqs⟩

def w3 : State 1 := ⟨w2.cache, w2.permitHeld, w2.setPC 0 .fetching, w2.reqs⟩

def w4 : State 1 := ⟨some ⟨"tok", 1⟩, false, w3.setPC 0 (.done "tok"), w3.reqs + 1⟩

theorem w_chain : Reachable 0 "tok" 1 w0 w4 :=
  .head (Step.readMiss 0 rfl rfl)
    (.head (Step.acquire 0 rfl rfl)
      (.head (Step.recheckMiss 0 rfl rfl)
        (.head (Step.fetch 0 rfl) .refl)))

end SingleFlight

/-- Witness for C1: the concrete one-caller execution miss → acquire →
re-check miss → fetch ends with one request made and the caller holding
the fetched token. -/
theorem single_flight_refresh_witness :
    SingleFlight.w4.reqs = 1
    ∧ SingleFlight.w4.pcs 0 = .done "tok" :=
  have h := single_flight_refresh 0 1 "tok" none SingleFlight.w4
    (by omega) (by omega) rfl SingleFlight.w_chain
    (fun i => ⟨"tok", by rw [Subsingleton.elim i 0]; rfl⟩)
  ⟨h.1, h.2 0⟩

/-- Witness for C8 at status `500`: body `{message: "boom"}` gives
`Api 500 "boom"`, an unparsable body gives `Api 500 "Unknown error"`. -/
theorem api_error_classification_witness :
    executeRequest (T := Unit) (.ok "tok")
        (.response 500 none none (some ⟨some "boom", none, some "code"⟩))
      = (.error (.api 500 "boom" (some "code")), 1)
    ∧ executeRequest (T := Unit) (.ok "tok") (.response 500 none none none)
      = (.error (.api 500 "Unknown error" none), 1) := by
  have h := api_error_classification (T := Unit) "tok" 500 none none
    (by decide) (by decide)
  exact ⟨h.1 ⟨some "boom", none, some "code"⟩, h.2⟩

end Auth0
